import Mathlib

/-!
Shallow embedding of the validator app's event loop, chain-submission
serializer and jury reactor (src/service/event_loop.go) from the
btc-validator repository, together with proofs of the specified
properties.

Byte-level data (public keys, signatures, transaction hashes, randomness
values) is abstracted to natural numbers; Go channels used as one-shot
reply slots are modelled as slot identifiers, and a handler's writes to
them are recorded in an explicit list of reply writes.  Go `uint64`
arithmetic is modelled on `Nat` with explicit reduction modulo `2 ^ 64`.
A logrus `Fatal` call (which terminates the process) and a Go runtime
panic (index out of range) are modelled as the `Except.error` branch of
the handler, carrying no reply writes and no successor state.
-/

/-- Modulus of Go's `uint64` arithmetic. -/
def U64MOD : Nat := 2 ^ 64

/-- Wrapping `uint64` addition, as performed by Go's `+` on `uint64`. -/
def u64add (a b : Nat) : Nat := (a + b) % U64MOD

/-- Go's conversion `uint64(i)` of a signed `int` value `i`: reduction of
the integer modulo `2 ^ 64` (two's-complement wrap-around). -/
def intToU64 (i : Int) : Nat := (i % (U64MOD : Int)).toNat

/-- Validator lifecycle status (proto.ValidatorStatus). -/
inductive ValidatorStatus where
  | CREATED
  | REGISTERED
  | ACTIVE
  | INACTIVE
  deriving DecidableEq, Repr

/-- A managed validator record (proto.Validator), keyed by its Babylon
public key; byte-string fields abstracted to naturals. -/
structure Validator where
  bbnPk : Nat
  btcPk : Nat
  status : ValidatorStatus
  lastVotedHeight : Nat
  lastCommittedHeight : Nat
  deriving DecidableEq, Repr

/-- A committed randomness pair (proto.SchnorrRandPair): the secret
one-time randomness and the matching public randomness. -/
structure SchnorrRandPair where
  secRand : Nat
  pubRand : Nat
  deriving DecidableEq, Repr

/-- The durable validator store (the `app.vs` interface): validator
records keyed by Babylon public key, and randomness pairs keyed by
(validator key, height).  `randPairs` is kept as a list in write order so
that the order of `SaveRandPair` calls is observable. -/
structure ValidatorStore where
  validators : Nat → Option Validator
  randPairs : List ((Nat × Nat) × SchnorrRandPair)

/-- Injected storage faults: the store interface may return a storage
error on any write (`Save(Validator) -> ok | StorageError`,
`SaveRandPair(...) -> ok | StorageError` in the external interface). -/
structure StoreFaults where
  failSetStatus : Bool
  failSetLastVoted : Bool
  failSaveValidator : Bool
  failSaveRand : Nat → Bool

/-- `GetValidator`: keyed lookup; `none` models the NotFound error. -/
def lookupValidator (st : ValidatorStore) (k : Nat) : Option Validator :=
  st.validators k

/-- The pure effect of persisting a validator record: the store maps the
record's own key to the record. -/
def saveValidatorPure (st : ValidatorStore) (v : Validator) : ValidatorStore :=
  { st with validators := fun k => if k = v.bbnPk then some v else st.validators k }

/-- The pure effect of persisting one randomness pair under
(validator key, height): appended in call order. -/
def saveRandPairPure (st : ValidatorStore) (pk height : Nat) (pair : SchnorrRandPair) :
    ValidatorStore :=
  { st with randPairs := st.randPairs ++ [((pk, height), pair)] }

/-- How a handler invocation can terminate the process: a logrus
`Fatal` log (which exits the process) or a Go runtime panic from an
out-of-range index. -/
inductive RunError where
  | fatal (msg : String)
  | indexOutOfRange
  deriving DecidableEq, Repr

/-- `SaveValidator` as called by the event loop: persists the record or
returns a storage error (surfaced by the caller as a Fatal log). -/
def saveValidator (f : StoreFaults) (st : ValidatorStore) (v : Validator) :
    Except RunError ValidatorStore :=
  if f.failSaveValidator then .error (.fatal "err while saving validator to DB")
  else .ok (saveValidatorPure st v)

/-- Modelled from the spec: `SetValidatorStatus` is a validator-store
method whose body is not among the provided sources; per the spec's
registration-completion contract it sets the status and persists the
record, and like every durable write it may fail with a storage error. -/
def setValidatorStatus (f : StoreFaults) (st : ValidatorStore) (v : Validator)
    (s : ValidatorStatus) : Except RunError ValidatorStore :=
  if f.failSetStatus then .error (.fatal "err while saving validator to DB")
  else .ok (saveValidatorPure st { v with status := s })

/-- Modelled from the spec: `SetValidatorLastVotedHeight` is a
validator-store method whose body is not among the provided sources; per
the spec's finality-signature-completion contract it sets
`LastVotedHeight` to the signed height if greater than the current value
(lower or duplicate heights must not move it backward), persists, and
may fail with a storage error. -/
def setValidatorLastVotedHeight (f : StoreFaults) (st : ValidatorStore) (v : Validator)
    (height : Nat) : Except RunError ValidatorStore :=
  if f.failSetLastVoted then
    .error (.fatal "err while updating the validator last voted height to DB")
  else
    .ok (saveValidatorPure st
      (if v.lastVotedHeight < height then { v with lastVotedHeight := height } else v))

/-- `SaveRandPair`: persists one randomness pair or returns a storage
error (surfaced by the event loop as a Fatal log). -/
def saveRandPair (f : StoreFaults) (st : ValidatorStore) (pk height : Nat)
    (pair : SchnorrRandPair) : Except RunError ValidatorStore :=
  if f.failSaveRand height then .error (.fatal "err while saving committed random pair to DB")
  else .ok (saveRandPairPure st pk height pair)

/-- finalitySigAddedEvent: completion of a finality-signature chain call. -/
structure FinalitySigAddedEvent where
  bbnPubKey : Nat
  height : Nat
  txHash : Nat
  successResponse : Nat
  deriving DecidableEq, Repr

/-- validatorRegisteredEvent: completion of a register-validator call. -/
structure ValidatorRegisteredEvent where
  bbnPubKey : Nat
  txHash : Nat
  successResponse : Nat
  deriving DecidableEq, Repr

/-- pubRandCommittedEvent: completion of a commit-public-randomness call. -/
structure PubRandCommittedEvent where
  startingHeight : Nat
  bbnPubKey : Nat
  valBtcPk : Nat
  privRandList : List Nat
  pubRandList : List Nat
  txHash : Nat
  successResponse : Nat
  deriving DecidableEq, Repr

/-- jurySigAddedEvent: completion of a jury-signature chain call. -/
structure JurySigAddedEvent where
  bbnPubKey : Nat
  txHash : Nat
  successResponse : Nat
  deriving DecidableEq, Repr

/-- The completion events consumed by the event loop. -/
inductive Event where
  | finalitySigAdded (ev : FinalitySigAddedEvent)
  | validatorRegistered (ev : ValidatorRegisteredEvent)
  | pubRandCommitted (ev : PubRandCommittedEvent)
  | jurySigAdded (ev : JurySigAddedEvent)
  deriving DecidableEq, Repr

/-- Success responses delivered on a request's success reply channel. -/
inductive Response where
  | createValidator (payload : Nat)
  | registerValidator (txHash : Nat)
  | addFinalitySig (txHash : Nat)
  | commitPubRand (txHash : Nat)
  | addJurySig (txHash : Nat)
  deriving DecidableEq, Repr

/-- A recorded write to a reply channel: either an error sent on an
errResponse slot or a success response sent on a successResponse slot. -/
inductive ReplyWrite where
  | err (slot : Nat) (e : Nat)
  | success (slot : Nat) (resp : Response)
  deriving DecidableEq, Repr

/-- The per-height save loop of the randomness-commitment handler:
`for i, pr := range ev.privRandList` builds the pair from `pr` and
`ev.pubRandList[i]` (a panic if `i` is out of range for the public list)
and persists it at height `startingHeight + uint64(i)`. -/
def saveRandLoop (f : StoreFaults) (pk start : Nat) :
    List Nat → Nat → List Nat → ValidatorStore → Except RunError ValidatorStore
  | [], _, _, st => .ok st
  | p :: rest, i, pub, st =>
    match pub[i]? with
    | none => .error .indexOutOfRange
    | some q =>
      match saveRandPair f st pk (u64add start i) ⟨p, q⟩ with
      | .error m => .error m
      | .ok st1 => saveRandLoop f pk start rest (i + 1) pub st1

/-- One dispatch of the event loop (`eventLoop` in the source) on a
completion event: returns the reply writes performed and the updated
store, or the process-terminating error (Fatal log / panic). -/
def handleEvent (f : StoreFaults) (st : ValidatorStore) : Event →
    Except RunError (List ReplyWrite × ValidatorStore)
  | .finalitySigAdded ev =>
    match lookupValidator st ev.bbnPubKey with
    | none => .error (.fatal "finality signature added validator not found in DB")
    | some val =>
      match setValidatorLastVotedHeight f st val ev.height with
      | .error m => .error m
      | .ok st1 => .ok ([.success ev.successResponse (.addFinalitySig ev.txHash)], st1)
  | .validatorRegistered ev =>
    match lookupValidator st ev.bbnPubKey with
    | none => .error (.fatal "Registred validator not found in DB")
    | some val =>
      match setValidatorStatus f st val .REGISTERED with
      | .error m => .error m
      | .ok st1 => .ok ([.success ev.successResponse (.registerValidator ev.txHash)], st1)
  | .pubRandCommitted ev =>
    match lookupValidator st ev.bbnPubKey with
    | none => .error (.fatal "Public randomness committed validator not found in DB")
    | some val =>
      let val1 := { val with
        lastCommittedHeight :=
          u64add ev.startingHeight (intToU64 ((ev.pubRandList.length : Int) - 1)) }
      match saveValidator f st val1 with
      | .error m => .error m
      | .ok st1 =>
        match saveRandLoop f ev.bbnPubKey ev.startingHeight ev.privRandList 0
            ev.pubRandList st1 with
        | .error m => .error m
        | .ok st2 => .ok ([.success ev.successResponse (.commitPubRand ev.txHash)], st2)
  | .jurySigAdded ev =>
    .ok ([.success ev.successResponse (.addJurySig ev.txHash)], st)

/-- Processing a sequence of completion events, stopping at the first
process-terminating error; used to state lifetime invariants. -/
def runEvents (f : StoreFaults) (st : ValidatorStore) : List Event →
    Except RunError ValidatorStore
  | [] => .ok st
  | ev :: rest =>
    match handleEvent f st ev with
    | .error m => .error m
    | .ok (_, st1) => runEvents f st1 rest

/-- addFinalitySigRequest: a queued finality-signature submission. -/
structure AddFinalitySigRequest where
  valBtcPk : Nat
  blockHeight : Nat
  blockLastCommitHash : Nat
  sig : Nat
  bbnPubKey : Nat
  successResponse : Nat
  errResponse : Nat
  deriving DecidableEq, Repr

/-- registerValidatorRequest: a queued validator registration. -/
structure RegisterValidatorRequest where
  bbnPubKey : Nat
  btcPubKey : Nat
  pop : Nat
  successResponse : Nat
  errResponse : Nat
  deriving DecidableEq, Repr

/-- commitPubRandRequest: a queued public-randomness commitment. -/
structure CommitPubRandRequest where
  valBtcPk : Nat
  startingHeight : Nat
  privRandList : List Nat
  pubRandList : List Nat
  sig : Nat
  bbnPubKey : Nat
  successResponse : Nat
  errResponse : Nat
  deriving DecidableEq, Repr

/-- addJurySigRequest: a queued jury-signature submission. -/
structure AddJurySigRequest where
  valBtcPk : Nat
  delBtcPk : Nat
  sig : Nat
  bbnPubKey : Nat
  successResponse : Nat
  errResponse : Nat
  deriving DecidableEq, Repr

/-- The four inbound request channels of the serializer. -/
inductive Chan where
  | finalitySig
  | registerVal
  | commitRand
  | jurySig
  deriving DecidableEq, Repr

/-- A request of any of the serializer's four types. -/
inductive AnyReq where
  | fin (r : AddFinalitySigRequest)
  | reg (r : RegisterValidatorRequest)
  | com (r : CommitPubRandRequest)
  | jury (r : AddJurySigRequest)
  deriving DecidableEq, Repr

/-- The consensus-chain client (`app.bc`): each method performs one
chain call, returning a transaction hash or an error code. -/
structure ChainClient where
  registerValidator : Nat → Nat → Nat → Except Nat Nat
  submitFinalitySig : Nat → Nat → Nat → Nat → Except Nat Nat
  commitPubRandList : Nat → Nat → List Nat → Nat → Except Nat Nat
  submitJurySig : Nat → Nat → Nat → Except Nat Nat

/-- A chain call as observed by the chain client, with its arguments. -/
inductive ChainCall where
  | registerValidator (bbnPk btcPk pop : Nat)
  | submitFinalitySig (btcPk height lastCommitHash sig : Nat)
  | commitPubRandList (btcPk start : Nat) (pubList : List Nat) (sig : Nat)
  | submitJurySig (valPk delPk sig : Nat)
  deriving DecidableEq, Repr

/-- The channel on which the request producing a given chain call was
submitted. -/
def chanOfCall : ChainCall → Chan
  | .registerValidator _ _ _ => .registerVal
  | .submitFinalitySig _ _ _ _ => .finalitySig
  | .commitPubRandList _ _ _ _ => .commitRand
  | .submitJurySig _ _ _ => .jurySig

/-- The chain call a request gives rise to. -/
def callOf : AnyReq → ChainCall
  | .fin r => .submitFinalitySig r.valBtcPk r.blockHeight r.blockLastCommitHash r.sig
  | .reg r => .registerValidator r.bbnPubKey r.btcPubKey r.pop
  | .com r => .commitPubRandList r.valBtcPk r.startingHeight r.pubRandList r.sig
  | .jury r => .submitJurySig r.valBtcPk r.delBtcPk r.sig

/-- Executing a request's chain call against the chain client. -/
def chainExec (bc : ChainClient) : AnyReq → Except Nat Nat
  | .fin r => bc.submitFinalitySig r.valBtcPk r.blockHeight r.blockLastCommitHash r.sig
  | .reg r => bc.registerValidator r.bbnPubKey r.btcPubKey r.pop
  | .com r => bc.commitPubRandList r.valBtcPk r.startingHeight r.pubRandList r.sig
  | .jury r => bc.submitJurySig r.valBtcPk r.delBtcPk r.sig

/-- The completion event the serializer emits for a successful request,
carrying the transaction hash and the request's success reply slot. -/
def eventOf : AnyReq → Nat → Event
  | .fin r, tx => .finalitySigAdded
      { bbnPubKey := r.bbnPubKey, height := r.blockHeight, txHash := tx,
        successResponse := r.successResponse }
  | .reg r, tx => .validatorRegistered
      { bbnPubKey := r.bbnPubKey, txHash := tx, successResponse := r.successResponse }
  | .com r, tx => .pubRandCommitted
      { startingHeight := r.startingHeight, bbnPubKey := r.bbnPubKey,
        valBtcPk := r.valBtcPk, privRandList := r.privRandList,
        pubRandList := r.pubRandList, txHash := tx,
        successResponse := r.successResponse }
  | .jury r, tx => .jurySigAdded
      { bbnPubKey := r.bbnPubKey, txHash := tx, successResponse := r.successResponse }

/-- The request's error reply slot. -/
def errSlotOf : AnyReq → Nat
  | .fin r => r.errResponse
  | .reg r => r.errResponse
  | .com r => r.errResponse
  | .jury r => r.errResponse

/-- The request's success reply slot. -/
def succSlotOf : AnyReq → Nat
  | .fin r => r.successResponse
  | .reg r => r.successResponse
  | .com r => r.successResponse
  | .jury r => r.successResponse

/-- The channel a request is submitted on. -/
def chanOfReq : AnyReq → Chan
  | .fin _ => .finalitySig
  | .reg _ => .registerVal
  | .com _ => .commitRand
  | .jury _ => .jurySig

/-- The serializer's four inbound FIFO queues, one per request channel
(`addFinalitySigRequestChan`, `registerValidatorRequestChan`,
`commitPubRandRequestChan`, `addJurySigRequestChan`). -/
structure SerializerState where
  finalityQ : List AddFinalitySigRequest
  registerQ : List RegisterValidatorRequest
  commitQ : List CommitPubRandRequest
  juryQ : List AddJurySigRequest
  deriving DecidableEq, Repr

/-- The contents of one queue, viewed as uniformly-typed requests. -/
def queueOf (st : SerializerState) : Chan → List AnyReq
  | .finalitySig => st.finalityQ.map .fin
  | .registerVal => st.registerQ.map .reg
  | .commitRand => st.commitQ.map .com
  | .jurySig => st.juryQ.map .jury

/-- The head of a channel's queue, if any. -/
def headReq (st : SerializerState) (c : Chan) : Option AnyReq :=
  (queueOf st c).head?

/-- The state after removing the head of a channel's queue. -/
def popChan (st : SerializerState) : Chan → SerializerState
  | .finalitySig => { st with finalityQ := st.finalityQ.tail }
  | .registerVal => { st with registerQ := st.registerQ.tail }
  | .commitRand => { st with commitQ := st.commitQ.tail }
  | .jurySig => { st with juryQ := st.juryQ.tail }

/-- One iteration of `handleSentToBabylonLoop`, firing the `select` case
for channel `c` (Go's `select` fires only on a ready channel; an empty
queue is modelled as a no-op since that case cannot fire).  The chosen
request's chain call is performed; on error the error is written to the
request's errResponse slot and no event is emitted; on success exactly
one completion event carrying the request's successResponse slot is
emitted.  Output: chain calls observed, reply writes, emitted events,
successor state. -/
def serStep (bc : ChainClient) (st : SerializerState) (c : Chan) :
    List ChainCall × List ReplyWrite × List Event × SerializerState :=
  match headReq st c with
  | none => ([], [], [], st)
  | some r =>
    match chainExec bc r with
    | .error e => ([callOf r], [.err (errSlotOf r) e], [], popChan st c)
    | .ok tx => ([callOf r], [], [eventOf r tx], popChan st c)

/-- A run of the serializer loop under a given sequence of `select`
choices, concatenating the observed chain calls, reply writes and
emitted events. -/
def serRun (bc : ChainClient) : List Chan → SerializerState →
    List ChainCall × List ReplyWrite × List Event × SerializerState
  | [], st => ([], [], [], st)
  | c :: cs, st =>
    let s1 := serStep bc st c
    let s2 := serRun bc cs s1.2.2.2
    (s1.1 ++ s2.1, s1.2.1 ++ s2.2.1, s1.2.2.1 ++ s2.2.2.1, s2.2.2.2)

/-- Appending a freshly submitted request to its channel's queue. -/
def enqueue (st : SerializerState) : AnyReq → SerializerState
  | .fin r => { st with finalityQ := st.finalityQ ++ [r] }
  | .reg r => { st with registerQ := st.registerQ ++ [r] }
  | .com r => { st with commitQ := st.commitQ ++ [r] }
  | .jury r => { st with juryQ := st.juryQ ++ [r] }

/-- The serializer state with no pending requests. -/
def emptySer : SerializerState := ⟨[], [], [], []⟩

/-- The serializer state reached by submitting a sequence of requests,
in submission order, to the (initially empty) inbound queues. -/
def enqueueAll (rs : List AnyReq) : SerializerState :=
  rs.foldl enqueue emptySer

/-- Whether every inbound queue has been drained. -/
def allQueuesEmpty (st : SerializerState) : Prop :=
  st.finalityQ = [] ∧ st.registerQ = [] ∧ st.commitQ = [] ∧ st.juryQ = []

/-- One tick of the jury reactor (`jurySigSubmissionLoop`): fetch the
pending delegations (an error is logged and the tick skipped), then call
`AddJurySignature` for each delegation in turn, logging per-delegation
errors; the tick records, per delegation attempted, the outcome.  The
fetch and per-delegation submission (repository code outside the loop)
are oracle parameters; delegations abstracted to naturals. -/
def juryTick (fetch : Except Nat (List Nat)) (sign : Nat → Except Nat Nat) :
    Except RunError (List (Nat × Except Nat Nat)) :=
  match fetch with
  | .error _ => .ok []
  | .ok dels => .ok (dels.map fun d => (d, sign d))

/-- A request of any of the five caller-facing operations: the four that
pass through the serializer, plus create-validator which is handled
directly by the event loop. -/
structure CreateValidatorRequest where
  keyName : Nat
  successResponse : Nat
  errResponse : Nat
  deriving DecidableEq, Repr

/-- The event loop's dispatch on a create-validator request (lines
90-98): the inner handler (repository code outside this file) is an
oracle; its error is written to the errResponse slot, its result to the
successResponse slot. -/
def eventLoopCreate (handlerResult : Except Nat Nat) (r : CreateValidatorRequest) :
    List ReplyWrite :=
  match handlerResult with
  | .error e => [.err r.errResponse e]
  | .ok resp => [.success r.successResponse (.createValidator resp)]

/-- End-to-end processing of one serializer-bound request: the
serializer performs the chain call (writing the error reply itself on
failure), and on success the event loop handles the emitted completion
event. -/
def processSub (bc : ChainClient) (f : StoreFaults) (st : ValidatorStore) (r : AnyReq) :
    Except RunError (List ReplyWrite × ValidatorStore) :=
  match chainExec bc r with
  | .error e => .ok ([.err (errSlotOf r) e], st)
  | .ok tx => handleEvent f st (eventOf r tx)

/-- Any of the five caller-facing requests. -/
inductive Req5 where
  | create (r : CreateValidatorRequest)
  | sub (r : AnyReq)
  deriving DecidableEq, Repr

/-- End-to-end processing of any of the five request kinds
(create-validator handled by the event loop directly; the rest through
the serializer and the event loop). -/
def processAny (bc : ChainClient) (f : StoreFaults) (st : ValidatorStore)
    (createRes : Except Nat Nat) : Req5 →
    Except RunError (List ReplyWrite × ValidatorStore)
  | .create r => .ok (eventLoopCreate createRes r, st)
  | .sub r => processSub bc f st r

/-- The error reply slot of any request. -/
def errSlot5 : Req5 → Nat
  | .create r => r.errResponse
  | .sub r => errSlotOf r

/-- The success reply slot of any request. -/
def succSlot5 : Req5 → Nat
  | .create r => r.successResponse
  | .sub r => succSlotOf r

/-- The slot a reply write targets. -/
def writeSlot : ReplyWrite → Nat
  | .err s _ => s
  | .success s _ => s

/-- The success reply slot carried by a completion event. -/
def evSlot : Event → Nat
  | .finalitySigAdded ev => ev.successResponse
  | .validatorRegistered ev => ev.successResponse
  | .pubRandCommitted ev => ev.successResponse
  | .jurySigAdded ev => ev.successResponse

/-- Store well-formedness: every record is filed under its own key. -/
def StoreWF (st : ValidatorStore) : Prop :=
  ∀ k v, st.validators k = some v → v.bbnPk = k

/-- The last voted height recorded for a key (0 when absent). -/
def lvhAt (st : ValidatorStore) (k : Nat) : Nat :=
  match st.validators k with
  | none => 0
  | some v => v.lastVotedHeight

/-- The list of randomness pairs the save loop persists, in call order. -/
def expectedPairs (pk start : Nat) :
    List Nat → Nat → List Nat → List ((Nat × Nat) × SchnorrRandPair)
  | [], _, _ => []
  | p :: rest, i, pub =>
    ((pk, u64add start i), ⟨p, pub.getD i 0⟩) :: expectedPairs pk start rest (i + 1) pub

theorem lookup_saveValidatorPure (st : ValidatorStore) (v : Validator) (k : Nat) :
    lookupValidator (saveValidatorPure st v) k =
      if k = v.bbnPk then some v else lookupValidator st k := rfl

theorem randPairs_saveValidatorPure (st : ValidatorStore) (v : Validator) :
    (saveValidatorPure st v).randPairs = st.randPairs := rfl

theorem saveRandLoop_validators (f : StoreFaults) (pk start : Nat) (priv : List Nat) :
    ∀ (i : Nat) (pub : List Nat) (st st' : ValidatorStore),
      saveRandLoop f pk start priv i pub st = .ok st' → st'.validators = st.validators := by
  induction priv with
  | nil => intro i pub st st' h; simp [saveRandLoop] at h; rw [← h]
  | cons p rest ih =>
    intro i pub st st' h
    simp only [saveRandLoop] at h
    cases hq : pub[i]? with
    | none => rw [hq] at h; exact absurd h (by simp)
    | some q =>
      rw [hq] at h
      simp only [saveRandPair] at h
      by_cases hf : f.failSaveRand (u64add start i)
      · simp [hf] at h
      · simp only [hf, if_neg, Bool.false_eq_true, reduceIte] at h
        have := ih (i + 1) pub (saveRandPairPure st pk (u64add start i) ⟨p, q⟩) st' h
        rw [this]; rfl

theorem saveRandLoop_ok_eq (f : StoreFaults) (pk start : Nat)
    (hnof : ∀ h, f.failSaveRand h = false) (priv : List Nat) :
    ∀ (i : Nat) (pub : List Nat) (st : ValidatorStore), i + priv.length ≤ pub.length →
      saveRandLoop f pk start priv i pub st =
        .ok { st with randPairs := st.randPairs ++ expectedPairs pk start priv i pub } := by
  induction priv with
  | nil => intro i pub st _; simp [saveRandLoop, expectedPairs]
  | cons p rest ih =>
    intro i pub st hlen
    have hi : i < pub.length := by simp at hlen; omega
    have hq : pub[i]? = some (pub.getD i 0) := by
      rw [List.getElem?_eq_getElem hi]
      simp [List.getD_eq_getElem?_getD, List.getElem?_eq_getElem hi]
    simp only [saveRandLoop, hq, saveRandPair, hnof, Bool.false_eq_true, reduceIte]
    rw [ih (i + 1) pub _ (by simp at hlen ⊢; omega)]
    simp [saveRandPairPure, expectedPairs]

theorem saveRandLoop_isOk_iff (f : StoreFaults) (pk start : Nat)
    (hnof : ∀ h, f.failSaveRand h = false) (priv : List Nat) :
    ∀ (i : Nat) (pub : List Nat) (st : ValidatorStore),
      ((∃ st', saveRandLoop f pk start priv i pub st = .ok st') ↔
        (priv = [] ∨ i + priv.length ≤ pub.length)) := by
  induction priv with
  | nil => intro i pub st; simp [saveRandLoop]
  | cons p rest ih =>
    intro i pub st
    constructor
    · rintro ⟨st', h⟩
      simp only [saveRandLoop] at h
      cases hq : pub[i]? with
      | none => rw [hq] at h; exact absurd h (by simp)
      | some q =>
        rw [hq] at h
        simp only [saveRandPair, hnof, Bool.false_eq_true, reduceIte] at h
        have hi : i < pub.length := by
          by_contra hc
          rw [List.getElem?_eq_none (by omega)] at hq
          exact Option.noConfusion hq
        have := (ih (i + 1) pub (saveRandPairPure st pk (u64add start i) ⟨p, q⟩)).mp ⟨st', h⟩
        rcases this with h0 | h0
        · right; subst h0; simpa using hi
        · right; simp at h0 ⊢; omega
    · rintro (h0 | hlen)
      · exact absurd h0 (by simp)
      · exact ⟨_, saveRandLoop_ok_eq f pk start hnof (p :: rest) i pub st hlen⟩

theorem saveRandLoop_fault_error (f : StoreFaults) (pk start : Nat) (priv : List Nat) :
    ∀ (i : Nat) (pub : List Nat) (st : ValidatorStore), i + priv.length ≤ pub.length →
      (∃ j, j < priv.length ∧ f.failSaveRand (u64add start (i + j)) = true) →
      ∃ m, saveRandLoop f pk start priv i pub st = .error m := by
  induction priv with
  | nil => intro i pub st _ hj; rcases hj with ⟨j, hj, _⟩; simp at hj
  | cons p rest ih =>
    intro i pub st hlen hj
    have hi : i < pub.length := by simp at hlen; omega
    have hq : pub[i]? = some (pub.getD i 0) := by
      rw [List.getElem?_eq_getElem hi]
      simp [List.getD_eq_getElem?_getD, List.getElem?_eq_getElem hi]
    by_cases hf : f.failSaveRand (u64add start i) = true
    · refine ⟨.fatal "err while saving committed random pair to DB", ?_⟩
      simp only [saveRandLoop, hq, saveRandPair, hf, reduceIte]
    · rcases hj with ⟨j, hjlt, hjf⟩
      have hjne : j ≠ 0 := by
        intro h0; rw [h0, Nat.add_zero] at hjf; exact hf hjf
      obtain ⟨j', rfl⟩ : ∃ j', j = j' + 1 := ⟨j - 1, by omega⟩
      have hj2 : ∃ j, j < rest.length ∧ f.failSaveRand (u64add start (i + 1 + j)) = true := by
        refine ⟨j', ?_, ?_⟩
        · simp at hjlt; omega
        · rw [show i + 1 + j' = i + (j' + 1) by omega]; exact hjf
      have hrec := ih (i + 1) pub (saveRandPairPure st pk (u64add start i) ⟨p, pub.getD i 0⟩)
        (by simp at hlen ⊢; omega) hj2
      rcases hrec with ⟨m, hm⟩
      refine ⟨m, ?_⟩
      simp only [saveRandLoop, hq, saveRandPair]
      rw [if_neg hf]
      exact hm

theorem intToU64_ofNat (n : Nat) (h : n < U64MOD) : intToU64 n = n := by
  simp only [intToU64, U64MOD] at h ⊢
  omega

theorem intToU64_neg_one : intToU64 (-1) = U64MOD - 1 := by
  simp only [intToU64, U64MOD]
  decide

theorem handleEvent_ok_shape (f : StoreFaults) (st : ValidatorStore) (ev : Event)
    (out : List ReplyWrite × ValidatorStore) (h : handleEvent f st ev = .ok out) :
    ∃ resp st', out = ([.success (evSlot ev) resp], st') := by
  cases ev with
  | finalitySigAdded e =>
    simp only [handleEvent] at h
    split at h
    · exact absurd h (by simp)
    · split at h
      · exact absurd h (by simp)
      · exact ⟨_, _, by injection h with h'; rw [← h']; rfl⟩
  | validatorRegistered e =>
    simp only [handleEvent] at h
    split at h
    · exact absurd h (by simp)
    · split at h
      · exact absurd h (by simp)
      · exact ⟨_, _, by injection h with h'; rw [← h']; rfl⟩
  | pubRandCommitted e =>
    simp only [handleEvent] at h
    split at h
    · exact absurd h (by simp)
    · split at h
      · exact absurd h (by simp)
      · split at h
        · exact absurd h (by simp)
        · exact ⟨_, _, by injection h with h'; rw [← h']; rfl⟩
  | jurySigAdded e =>
    simp only [handleEvent] at h
    exact ⟨_, _, by injection h with h'; rw [← h']; rfl⟩

theorem saveValidatorPure_wf_mono (st : ValidatorStore) (v val : Validator) (k0 : Nat)
    (hwf : StoreWF st) (hl : st.validators k0 = some val) (hpk : v.bbnPk = val.bbnPk)
    (hlvh : val.lastVotedHeight ≤ v.lastVotedHeight) :
    StoreWF (saveValidatorPure st v) ∧
      ∀ k, lvhAt st k ≤ lvhAt (saveValidatorPure st v) k := by
  have hk0 : val.bbnPk = k0 := hwf k0 val hl
  constructor
  · intro k w hw
    simp only [saveValidatorPure] at hw
    by_cases hk : k = v.bbnPk
    · rw [if_pos hk] at hw
      injection hw with hw
      rw [← hw, hk]
    · rw [if_neg hk] at hw
      exact hwf k w hw
  · intro k
    simp only [lvhAt, saveValidatorPure]
    by_cases hk : k = v.bbnPk
    · rw [if_pos hk]
      have : k = k0 := by rw [hk, hpk, hk0]
      rw [this, hl]
      exact hlvh
    · rw [if_neg hk]

theorem handleEvent_wf_lvh_mono (f : StoreFaults) (st : ValidatorStore) (ev : Event)
    (rw : List ReplyWrite) (st' : ValidatorStore) (hwf : StoreWF st)
    (h : handleEvent f st ev = .ok (rw, st')) :
    StoreWF st' ∧ ∀ k, lvhAt st k ≤ lvhAt st' k := by
  cases ev with
  | finalitySigAdded e =>
    simp only [handleEvent] at h
    split at h
    · exact absurd h (by simp)
    next val hl =>
    split at h
    · exact absurd h (by simp)
    next st1 hset =>
    injection h with h'
    injection h' with h1 h2
    simp only [setValidatorLastVotedHeight] at hset
    split at hset
    · exact absurd hset (by simp)
    · injection hset with hset'
      rw [← h2, ← hset']
      refine saveValidatorPure_wf_mono st _ val e.bbnPubKey hwf hl ?_ ?_
      · split <;> rfl
      · split
        · next hlt => exact Nat.le_of_lt hlt
        · exact Nat.le_refl _
  | validatorRegistered e =>
    simp only [handleEvent] at h
    split at h
    · exact absurd h (by simp)
    next val hl =>
    split at h
    · exact absurd h (by simp)
    next st1 hset =>
    injection h with h'
    injection h' with h1 h2
    simp only [setValidatorStatus] at hset
    split at hset
    · exact absurd hset (by simp)
    · injection hset with hset'
      rw [← h2, ← hset']
      exact saveValidatorPure_wf_mono st _ val e.bbnPubKey hwf hl rfl (Nat.le_refl _)
  | pubRandCommitted e =>
    simp only [handleEvent] at h
    split at h
    · exact absurd h (by simp)
    next val hl =>
    split at h
    · exact absurd h (by simp)
    next st1 hsv =>
    split at h
    · exact absurd h (by simp)
    next st2 hloop =>
    injection h with h'
    injection h' with h1 h2
    simp only [saveValidator] at hsv
    split at hsv
    · exact absurd hsv (by simp)
    · injection hsv with hsv'
      have hvals := saveRandLoop_validators f e.bbnPubKey e.startingHeight
        e.privRandList 0 e.pubRandList st1 st2 hloop
      have hbase := saveValidatorPure_wf_mono st { val with
          lastCommittedHeight :=
            u64add e.startingHeight (intToU64 ((e.pubRandList.length : Int) - 1)) }
        val e.bbnPubKey hwf hl rfl (Nat.le_refl _)
      rw [← hsv'] at hvals
      rw [← h2]
      constructor
      · intro k w hw
        rw [hvals] at hw
        exact hbase.1 k w hw
      · intro k
        have := hbase.2 k
        simp only [lvhAt] at this ⊢
        rw [hvals]
        exact this
  | jurySigAdded e =>
    simp only [handleEvent] at h
    injection h with h'
    injection h' with h1 h2
    rw [← h2]
    exact ⟨hwf, fun k => Nat.le_refl _⟩

theorem runEvents_wf_lvh_mono (f : StoreFaults) (evs : List Event) :
    ∀ (st st' : ValidatorStore), StoreWF st → runEvents f st evs = .ok st' →
      StoreWF st' ∧ ∀ k, lvhAt st k ≤ lvhAt st' k := by
  induction evs with
  | nil =>
    intro st st' hwf h
    simp only [runEvents] at h
    injection h with h'
    rw [← h']
    exact ⟨hwf, fun k => Nat.le_refl _⟩
  | cons ev rest ih =>
    intro st st' hwf h
    simp only [runEvents] at h
    cases he : handleEvent f st ev with
    | error m => rw [he] at h; exact absurd h (by simp)
    | ok out =>
      rw [he] at h
      obtain ⟨rw0, st1⟩ := out
      have hstep := handleEvent_wf_lvh_mono f st ev rw0 st1 hwf he
      have hrest := ih st1 st' hstep.1 h
      exact ⟨hrest.1, fun k => Nat.le_trans (hstep.2 k) (hrest.2 k)⟩

theorem chanOfCall_callOf (r : AnyReq) : chanOfCall (callOf r) = chanOfReq r := by
  cases r <;> rfl

theorem headReq_chan (st : SerializerState) (c : Chan) (r : AnyReq)
    (h : headReq st c = some r) : chanOfReq r = c := by
  cases c with
  | finalitySig =>
    cases hq : st.finalityQ with
    | nil => simp [headReq, queueOf, hq] at h
    | cons a t => simp [headReq, queueOf, hq] at h; rw [← h]; rfl
  | registerVal =>
    cases hq : st.registerQ with
    | nil => simp [headReq, queueOf, hq] at h
    | cons a t => simp [headReq, queueOf, hq] at h; rw [← h]; rfl
  | commitRand =>
    cases hq : st.commitQ with
    | nil => simp [headReq, queueOf, hq] at h
    | cons a t => simp [headReq, queueOf, hq] at h; rw [← h]; rfl
  | jurySig =>
    cases hq : st.juryQ with
    | nil => simp [headReq, queueOf, hq] at h
    | cons a t => simp [headReq, queueOf, hq] at h; rw [← h]; rfl

theorem headReq_cons (st : SerializerState) (c : Chan) (r : AnyReq)
    (h : headReq st c = some r) : queueOf st c = r :: queueOf (popChan st c) c := by
  cases c with
  | finalitySig =>
    cases hq : st.finalityQ with
    | nil => simp [headReq, queueOf, hq] at h
    | cons a t => simp [headReq, queueOf, hq] at h; simp [queueOf, popChan, hq, ← h]
  | registerVal =>
    cases hq : st.registerQ with
    | nil => simp [headReq, queueOf, hq] at h
    | cons a t => simp [headReq, queueOf, hq] at h; simp [queueOf, popChan, hq, ← h]
  | commitRand =>
    cases hq : st.commitQ with
    | nil => simp [headReq, queueOf, hq] at h
    | cons a t => simp [headReq, queueOf, hq] at h; simp [queueOf, popChan, hq, ← h]
  | jurySig =>
    cases hq : st.juryQ with
    | nil => simp [headReq, queueOf, hq] at h
    | cons a t => simp [headReq, queueOf, hq] at h; simp [queueOf, popChan, hq, ← h]

theorem popChan_other (st : SerializerState) (c c' : Chan) (h : c ≠ c') :
    queueOf (popChan st c') c = queueOf st c := by
  cases c <;> cases c' <;> first
    | exact absurd rfl h
    | rfl

theorem serStep_calls_le_one (bc : ChainClient) (st : SerializerState) (c : Chan) :
    (serStep bc st c).1.length ≤ 1 := by
  cases hh : headReq st c with
  | none => simp [serStep, hh]
  | some r =>
    cases hex : chainExec bc r with
    | error e => simp [serStep, hh, hex]
    | ok tx => simp [serStep, hh, hex]

theorem serRun_perchan_fifo (bc : ChainClient) (choices : List Chan) :
    ∀ (st : SerializerState) (c : Chan), ∃ n,
      (serRun bc choices st).1.filter (fun k => chanOfCall k == c) =
        ((queueOf st c).take n).map callOf := by
  induction choices with
  | nil => intro st c; exact ⟨0, by simp [serRun]⟩
  | cons c0 cs ih =>
    intro st c
    cases hh : headReq st c0 with
    | none =>
      have hstep : serStep bc st c0 = ([], [], [], st) := by simp [serStep, hh]
      have : (serRun bc (c0 :: cs) st).1 = (serRun bc cs st).1 := by
        simp [serRun, hstep]
      rw [this]
      exact ih st c
    | some r =>
      have hsplit : (serRun bc (c0 :: cs) st).1 =
          callOf r :: (serRun bc cs (popChan st c0)).1 := by
        cases hex : chainExec bc r with
        | error e => simp [serRun, serStep, hh, hex]
        | ok tx => simp [serRun, serStep, hh, hex]
      rw [hsplit]
      by_cases hc : c0 = c
      · subst hc
        have hchan : (chanOfCall (callOf r) == c0) = true := by
          rw [chanOfCall_callOf, headReq_chan st c0 r hh]
          exact beq_self_eq_true c0
        obtain ⟨n, hn⟩ := ih (popChan st c0) c0
        refine ⟨n + 1, ?_⟩
        rw [headReq_cons st c0 r hh]
        simp [hchan, hn]
      · have hchan : (chanOfCall (callOf r) == c) = false := by
          rw [chanOfCall_callOf, headReq_chan st c0 r hh]
          simp
          exact fun he => hc he
        obtain ⟨n, hn⟩ := ih (popChan st c0) c
        refine ⟨n, ?_⟩
        rw [← popChan_other st c c0 (fun he => hc he.symm)]
        simp [hchan, hn]

theorem expectedPairs_range (pk start : Nat) (pub : List Nat) (priv : List Nat) :
    ∀ i, expectedPairs pk start priv i pub =
      (List.range priv.length).map (fun j =>
        ((pk, u64add start (i + j)), ⟨priv.getD j 0, pub.getD (i + j) 0⟩)) := by
  induction priv with
  | nil => intro i; simp [expectedPairs]
  | cons p rest ih =>
    intro i
    simp only [expectedPairs, List.length_cons, List.range_succ_eq_map, List.map_cons,
      List.map_map]
    rw [ih (i + 1)]
    refine List.cons_eq_cons.mpr ⟨by simp, ?_⟩
    refine List.map_congr_left ?_
    intro j hj
    simp only [Function.comp_apply, List.getD_cons_succ]
    have h1 : i + 1 + j = i + (j + 1) := by omega
    rw [h1]

theorem u64add_no_wrap (a b : Nat) (h : a + b < U64MOD) : u64add a b = a + b := by
  simp only [u64add, U64MOD] at h ⊢
  omega

theorem evSlot_eventOf (r : AnyReq) (tx : Nat) : evSlot (eventOf r tx) = succSlotOf r := by
  cases r <;> rfl

theorem handleEvent_pubrand_ok (f : StoreFaults) (st : ValidatorStore)
    (ev : PubRandCommittedEvent) (val : Validator)
    (hl : lookupValidator st ev.bbnPubKey = some val)
    (hfv : f.failSaveValidator = false)
    (hnof : ∀ h, f.failSaveRand h = false)
    (hlen : ev.privRandList = [] ∨ ev.privRandList.length ≤ ev.pubRandList.length) :
    handleEvent f st (.pubRandCommitted ev) =
      .ok ([.success ev.successResponse (.commitPubRand ev.txHash)],
        { saveValidatorPure st { val with
            lastCommittedHeight :=
              u64add ev.startingHeight (intToU64 ((ev.pubRandList.length : Int) - 1)) } with
          randPairs := st.randPairs ++
            expectedPairs ev.bbnPubKey ev.startingHeight ev.privRandList 0 ev.pubRandList }) := by
  simp only [handleEvent, hl, saveValidator, hfv, Bool.false_eq_true, reduceIte]
  rcases hlen with hnil | hle
  · rw [hnil]
    simp [saveRandLoop, expectedPairs, saveValidatorPure]
  · rw [saveRandLoop_ok_eq f ev.bbnPubKey ev.startingHeight hnof ev.privRandList 0
      ev.pubRandList _ (by omega)]
    simp [saveValidatorPure]

/-- A fault-free store interface. -/
def noFaults : StoreFaults := ⟨false, false, false, fun _ => false⟩

/-- A store interface whose SetValidatorStatus write fails. -/
def faultStatus : StoreFaults := ⟨true, false, false, fun _ => false⟩

/-- A chain client whose calls all succeed with transaction hash 7. -/
def okClient : ChainClient :=
  ⟨fun _ _ _ => .ok 7, fun _ _ _ _ => .ok 7, fun _ _ _ _ => .ok 7, fun _ _ _ => .ok 7⟩

/-- A chain client whose calls all fail with error code 3. -/
def failClient : ChainClient :=
  ⟨fun _ _ _ => .error 3, fun _ _ _ _ => .error 3, fun _ _ _ _ => .error 3,
    fun _ _ _ => .error 3⟩

/-- An example validator stored under key 1. -/
def exVal : Validator := ⟨1, 2, .CREATED, 101, 104⟩

/-- A store holding only the example validator. -/
def exStore : ValidatorStore := ⟨fun k => if k = 1 then some exVal else none, []⟩

/-- A store holding no validators. -/
def emptyStore : ValidatorStore := ⟨fun _ => none, []⟩

/-- Example requests and events for concrete instantiations. -/
def exFinReq : AddFinalitySigRequest := ⟨2, 101, 5, 6, 1, 30, 31⟩

def exRegReq : RegisterValidatorRequest := ⟨1, 2, 9, 40, 41⟩

def exJuryReq : AddJurySigRequest := ⟨2, 77, 9, 1, 60, 61⟩

def exFinEv : FinalitySigAddedEvent := ⟨1, 150, 7, 30⟩

def exRegEv : ValidatorRegisteredEvent := ⟨1, 7, 40⟩

def exComEv : PubRandCommittedEvent :=
  ⟨100, 1, 2, [11, 12, 13, 14, 15], [21, 22, 23, 24, 25], 7, 50⟩

def exEmptyComEv : PubRandCommittedEvent := ⟨0, 1, 2, [], [], 7, 50⟩

/-- A serializer state with one pending finality request and one pending
jury request. -/
def exSerSt : SerializerState := ⟨[exFinReq], [], [], [exJuryReq]⟩

/-- Claim C7: for every jury-signature-completion event, the event loop
writes the transaction handle to the caller's reply slot and performs no
mutation at all: the resulting store is the input store, so every
validator's status, LastVotedHeight, LastCommittedHeight and randomness
records are unchanged. -/
theorem c7_jury_completion_noop (f : StoreFaults) (st : ValidatorStore)
    (ev : JurySigAddedEvent) :
    handleEvent f st (.jurySigAdded ev) =
      .ok ([.success ev.successResponse (.addJurySig ev.txHash)], st) := rfl

/-- Claim C8: in the jury reactor, a failure fetching the pending
delegations yields a normally-completing tick with no submission
attempts (the tick is skipped, no crash), and on a successful fetch the
tick completes normally and attempts every delegation of the list, in
order, regardless of per-delegation signing failures. -/
theorem c8_jury_reactor_tick (e : Nat) (dels : List Nat) (sign : Nat → Except Nat Nat) :
    juryTick (.error e) sign = .ok [] ∧
    ∃ outs, juryTick (.ok dels) sign = .ok outs ∧ outs.map Prod.fst = dels :=
  ⟨rfl, ⟨dels.map fun d => (d, sign d), rfl, by
    induction dels with
    | nil => rfl
    | cons a t ih => simp_all⟩⟩

/-- Claim C4: when the chain call for the request at the head of a
serializer queue fails, the serializer performs exactly that chain call,
writes the error directly to that request's error reply slot, emits no
completion event, pops only that request from its queue, and leaves
every other channel's queue (other callers' requests) untouched, ready
for the next iteration of the loop. -/
theorem c4_chain_failure_reply (bc : ChainClient) (st : SerializerState) (c : Chan)
    (r : AnyReq) (e : Nat) (hh : headReq st c = some r)
    (hex : chainExec bc r = .error e) :
    serStep bc st c = ([callOf r], [.err (errSlotOf r) e], [], popChan st c) ∧
    ∀ c', c' ≠ c → queueOf (popChan st c) c' = queueOf st c' := by
  constructor
  · simp [serStep, hh, hex]
  · intro c' hc
    exact popChan_other st c' c hc

/-- Witness for C4: a failing jury-signature chain call writes the error
to the jury request's error slot, emits no event, and the pending
finality request of another caller is still queued. -/
theorem c4_witness :
    headReq exSerSt .jurySig = some (.jury exJuryReq) ∧
    chainExec failClient (.jury exJuryReq) = .error 3 ∧
    serStep failClient exSerSt .jurySig =
      ([callOf (.jury exJuryReq)], [.err (errSlotOf (.jury exJuryReq)) 3], [],
        popChan exSerSt .jurySig) ∧
    queueOf (popChan exSerSt .jurySig) .finalitySig = queueOf exSerSt .finalitySig :=
  ⟨rfl, rfl,
    (c4_chain_failure_reply failClient exSerSt .jurySig (.jury exJuryReq) 3 rfl rfl).1,
    (c4_chain_failure_reply failClient exSerSt .jurySig (.jury exJuryReq) 3 rfl rfl).2
      .finalitySig (by decide)⟩

/-- Claim C9: a randomness-commitment-completion event whose committed
randomness lists are empty sets the validator's LastCommittedHeight to
startingHeight - 1 in wrap-around 64-bit arithmetic (the Go expression
startingHeight + uint64(len(pubRandList)-1)), stores no randomness
pairs, and replies with success. -/
theorem c9_empty_commit_wraps (f : StoreFaults) (st : ValidatorStore)
    (ev : PubRandCommittedEvent) (val : Validator)
    (hl : lookupValidator st ev.bbnPubKey = some val)
    (hpk : val.bbnPk = ev.bbnPubKey)
    (hfv : f.failSaveValidator = false)
    (hpub : ev.pubRandList = [])
    (hpriv : ev.privRandList = []) :
    ∃ st2,
      handleEvent f st (.pubRandCommitted ev) =
        .ok ([.success ev.successResponse (.commitPubRand ev.txHash)], st2) ∧
      lookupValidator st2 ev.bbnPubKey =
        some { val with
          lastCommittedHeight := (ev.startingHeight + (U64MOD - 1)) % U64MOD } ∧
      st2.randPairs = st.randPairs := by
  have hlch : u64add ev.startingHeight (intToU64 ((ev.pubRandList.length : Int) - 1)) =
      (ev.startingHeight + (U64MOD - 1)) % U64MOD := by
    rw [hpub]
    simp only [List.length_nil, Nat.cast_zero, zero_sub, intToU64_neg_one]
    rfl
  refine ⟨saveValidatorPure st { val with
      lastCommittedHeight := (ev.startingHeight + (U64MOD - 1)) % U64MOD }, ?_, ?_, ?_⟩
  · simp only [handleEvent, hl, saveValidator, hfv, Bool.false_eq_true, reduceIte, hpriv,
      saveRandLoop, hlch]
  · rw [lookup_saveValidatorPure]
    have hb : ({ val with
        lastCommittedHeight := (ev.startingHeight + (U64MOD - 1)) % U64MOD } :
        Validator).bbnPk = val.bbnPk := rfl
    rw [hb, hpk, if_pos rfl]
  · rfl

/-- Witness for C9: committing an empty randomness list starting at
height 0 sets LastCommittedHeight to 2^64 - 1. -/
theorem c9_witness :
    (∃ st2,
      handleEvent noFaults exStore (.pubRandCommitted exEmptyComEv) =
        .ok ([.success 50 (.commitPubRand 7)], st2) ∧
      lookupValidator st2 1 =
        some { exVal with lastCommittedHeight := (0 + (U64MOD - 1)) % U64MOD } ∧
      st2.randPairs = exStore.randPairs) ∧
    (0 + (U64MOD - 1)) % U64MOD = U64MOD - 1 :=
  ⟨c9_empty_commit_wraps noFaults exStore exEmptyComEv exVal rfl rfl rfl rfl rfl,
    by decide⟩

/-- Claim C10: the randomness-commitment handler indexes the public list
at every index of the secret list and never checks their lengths: with a
validator present and no injected storage faults, the handler completes
without hitting the out-of-range error branch exactly when the secret
list is no longer than the public list. -/
theorem c10_index_precondition (f : StoreFaults) (st : ValidatorStore)
    (ev : PubRandCommittedEvent) (val : Validator)
    (hl : lookupValidator st ev.bbnPubKey = some val)
    (hfv : f.failSaveValidator = false)
    (hnof : ∀ h, f.failSaveRand h = false) :
    (∃ out, handleEvent f st (.pubRandCommitted ev) = .ok out) ↔
      ev.privRandList.length ≤ ev.pubRandList.length := by
  simp only [handleEvent, hl, saveValidator, hfv, Bool.false_eq_true, reduceIte]
  constructor
  · rintro ⟨out, hout⟩
    cases hloop : saveRandLoop f ev.bbnPubKey ev.startingHeight ev.privRandList 0
        ev.pubRandList (saveValidatorPure st { val with
          lastCommittedHeight :=
            u64add ev.startingHeight (intToU64 ((ev.pubRandList.length : Int) - 1)) }) with
    | error m => rw [hloop] at hout; exact absurd hout (by simp)
    | ok st2 =>
      have := (saveRandLoop_isOk_iff f ev.bbnPubKey ev.startingHeight hnof
        ev.privRandList 0 ev.pubRandList _).mp ⟨st2, hloop⟩
      rcases this with h0 | h0
      · rw [h0]; simp
      · omega
  · intro hle
    rw [saveRandLoop_ok_eq f ev.bbnPubKey ev.startingHeight hnof ev.privRandList 0
      ev.pubRandList _ (by omega)]
    exact ⟨_, rfl⟩

/-- Witness for C10: the example commitment event has equal-length lists
and the handler completes successfully. -/
theorem c10_witness :
    (∃ out, handleEvent noFaults exStore (.pubRandCommitted exComEv) = .ok out) ↔
      exComEv.privRandList.length ≤ exComEv.pubRandList.length :=
  c10_index_precondition noFaults exStore exComEv exVal rfl rfl (fun _ => rfl)

/-- Claim C3: for a randomness-commitment-completion event for an
existing validator (paired secret/public lists, at least one value, no
uint64 wrap, no storage faults), the event loop sets the validator's
LastCommittedHeight to startingHeight + number of committed values - 1,
persists the validator, appends one (height, secret, public) pair per
height of the committed range in increasing height order, and the
success reply carrying the transaction handle is produced together with
the fully-written store. -/
theorem c3_pubrand_completion (f : StoreFaults) (st : ValidatorStore)
    (ev : PubRandCommittedEvent) (val : Validator)
    (hl : lookupValidator st ev.bbnPubKey = some val)
    (hpk : val.bbnPk = ev.bbnPubKey)
    (hfv : f.failSaveValidator = false)
    (hnof : ∀ h, f.failSaveRand h = false)
    (hlen : ev.privRandList.length = ev.pubRandList.length)
    (hpos : 0 < ev.pubRandList.length)
    (hnw : ev.startingHeight + ev.pubRandList.length ≤ U64MOD) :
    ∃ st2,
      handleEvent f st (.pubRandCommitted ev) =
        .ok ([.success ev.successResponse (.commitPubRand ev.txHash)], st2) ∧
      lookupValidator st2 ev.bbnPubKey =
        some { val with
          lastCommittedHeight := ev.startingHeight + ev.pubRandList.length - 1 } ∧
      st2.randPairs = st.randPairs ++
        (List.range ev.privRandList.length).map (fun j =>
          ((ev.bbnPubKey, ev.startingHeight + j),
            ⟨ev.privRandList.getD j 0, ev.pubRandList.getD j 0⟩)) := by
  have hlch : u64add ev.startingHeight (intToU64 ((ev.pubRandList.length : Int) - 1)) =
      ev.startingHeight + ev.pubRandList.length - 1 := by
    rw [show ((ev.pubRandList.length : Int) - 1) =
        ((ev.pubRandList.length - 1 : Nat) : Int) by omega]
    rw [intToU64_ofNat _ (by omega)]
    rw [u64add_no_wrap _ _ (by omega)]
    omega
  have hpairs : expectedPairs ev.bbnPubKey ev.startingHeight ev.privRandList 0
      ev.pubRandList =
      (List.range ev.privRandList.length).map (fun j =>
        ((ev.bbnPubKey, ev.startingHeight + j),
          ⟨ev.privRandList.getD j 0, ev.pubRandList.getD j 0⟩)) := by
    rw [expectedPairs_range ev.bbnPubKey ev.startingHeight ev.pubRandList
      ev.privRandList 0]
    refine List.map_congr_left ?_
    intro j hj
    rw [List.mem_range] at hj
    rw [Nat.zero_add, u64add_no_wrap _ _ (by omega)]
  refine ⟨_, handleEvent_pubrand_ok f st ev val hl hfv hnof (Or.inr (by omega)), ?_, ?_⟩
  · simp [hlch, lookupValidator, saveValidatorPure, hpk]
  · rw [hpairs]

/-- Witness for C3, matching the spec scenario: committing 5 values for
the example validator starting at height 100 makes LastCommittedHeight
104 and appends the 5 records at heights 100..104 in order. -/
theorem c3_witness :
    ∃ st2,
      handleEvent noFaults exStore (.pubRandCommitted exComEv) =
        .ok ([.success 50 (.commitPubRand 7)], st2) ∧
      lookupValidator st2 1 = some { exVal with lastCommittedHeight := 104 } ∧
      st2.randPairs = exStore.randPairs ++
        (List.range (5 : Nat)).map (fun j =>
          ((1, 100 + j),
            ⟨[11, 12, 13, 14, 15].getD j 0, [21, 22, 23, 24, 25].getD j 0⟩)) :=
  c3_pubrand_completion noFaults exStore exComEv exVal rfl rfl rfl (fun _ => rfl) rfl
    (by decide) (by decide)

/-- Claim C2: for every finality-signature-completion event for an
existing validator, LastVotedHeight is set to the event's height exactly
when it exceeds the current value and is left unchanged otherwise, and
across any successfully processed event sequence every key's recorded
LastVotedHeight is non-decreasing. -/
theorem c2_lastVotedHeight_monotone :
    (∀ (f : StoreFaults) (st : ValidatorStore) (ev : FinalitySigAddedEvent)
        (val : Validator) (rws : List ReplyWrite) (st' : ValidatorStore),
        lookupValidator st ev.bbnPubKey = some val → val.bbnPk = ev.bbnPubKey →
        handleEvent f st (.finalitySigAdded ev) = .ok (rws, st') →
        lookupValidator st' ev.bbnPubKey =
          some (if val.lastVotedHeight < ev.height
                then { val with lastVotedHeight := ev.height } else val)) ∧
    (∀ (f : StoreFaults) (st : ValidatorStore) (evs : List Event) (st' : ValidatorStore),
        StoreWF st → runEvents f st evs = .ok st' →
        ∀ k, lvhAt st k ≤ lvhAt st' k) := by
  constructor
  · intro f st ev val rws st' hl hpk h
    simp only [handleEvent] at h
    split at h
    · exact absurd h (by simp)
    next val2 hl2 =>
    rw [hl] at hl2
    injection hl2 with hval
    subst hval
    split at h
    · exact absurd h (by simp)
    next st1 hset =>
    injection h with h'
    injection h' with h1 h2
    simp only [setValidatorLastVotedHeight] at hset
    split at hset
    · exact absurd hset (by simp)
    · injection hset with hset'
      rw [← h2, ← hset', lookup_saveValidatorPure]
      have hb : (if val.lastVotedHeight < ev.height
          then { val with lastVotedHeight := ev.height } else val).bbnPk = val.bbnPk := by
        split <;> rfl
      rw [hb, hpk, if_pos rfl]
  · intro f st evs st' hwf h k
    exact (runEvents_wf_lvh_mono f evs st st' hwf h).2 k

/-- Witness for C2: processing the example finality completion (height
150 over current 101) moves the stored height to 150, and over the
one-event run the recorded height at key 1 does not decrease. -/
theorem c2_witness :
    (lookupValidator (saveValidatorPure exStore { exVal with lastVotedHeight := 150 }) 1 =
      some (if exVal.lastVotedHeight < exFinEv.height
            then { exVal with lastVotedHeight := exFinEv.height } else exVal)) ∧
    lvhAt exStore 1 ≤
      lvhAt (saveValidatorPure exStore { exVal with lastVotedHeight := 150 }) 1 := by
  have hwf : StoreWF exStore := by
    intro k v hv
    simp only [exStore] at hv
    split at hv
    · next hk => injection hv with hv; rw [← hv, hk]; rfl
    · exact absurd hv (by simp)
  refine ⟨?_, ?_⟩
  · exact c2_lastVotedHeight_monotone.1 noFaults exStore exFinEv exVal
      [.success 30 (.addFinalitySig 7)]
      (saveValidatorPure exStore { exVal with lastVotedHeight := 150 }) rfl rfl rfl
  · exact c2_lastVotedHeight_monotone.2 noFaults exStore [.finalitySigAdded exFinEv]
      (saveValidatorPure exStore { exVal with lastVotedHeight := 150 }) hwf rfl 1

/-- Claim C5: for the three validator-state-mutating completion events,
a validator identity absent from the store, and every failed durable
write reached while handling the event, makes the handler return the
process-terminating error branch — which by construction carries no
reply write and no successor state — and the event loop run stops at
that event instead of continuing. -/
theorem c5_consistency_fatal :
    (∀ (f : StoreFaults) (st : ValidatorStore) (ev : ValidatorRegisteredEvent),
        lookupValidator st ev.bbnPubKey = none →
        ∃ m, handleEvent f st (.validatorRegistered ev) = .error m) ∧
    (∀ (f : StoreFaults) (st : ValidatorStore) (ev : FinalitySigAddedEvent),
        lookupValidator st ev.bbnPubKey = none →
        ∃ m, handleEvent f st (.finalitySigAdded ev) = .error m) ∧
    (∀ (f : StoreFaults) (st : ValidatorStore) (ev : PubRandCommittedEvent),
        lookupValidator st ev.bbnPubKey = none →
        ∃ m, handleEvent f st (.pubRandCommitted ev) = .error m) ∧
    (∀ (f : StoreFaults) (st : ValidatorStore) (ev : ValidatorRegisteredEvent),
        f.failSetStatus = true → (∃ v, lookupValidator st ev.bbnPubKey = some v) →
        ∃ m, handleEvent f st (.validatorRegistered ev) = .error m) ∧
    (∀ (f : StoreFaults) (st : ValidatorStore) (ev : FinalitySigAddedEvent),
        f.failSetLastVoted = true → (∃ v, lookupValidator st ev.bbnPubKey = some v) →
        ∃ m, handleEvent f st (.finalitySigAdded ev) = .error m) ∧
    (∀ (f : StoreFaults) (st : ValidatorStore) (ev : PubRandCommittedEvent),
        f.failSaveValidator = true → (∃ v, lookupValidator st ev.bbnPubKey = some v) →
        ∃ m, handleEvent f st (.pubRandCommitted ev) = .error m) ∧
    (∀ (f : StoreFaults) (st : ValidatorStore) (ev : PubRandCommittedEvent),
        f.failSaveValidator = false → (∃ v, lookupValidator st ev.bbnPubKey = some v) →
        ev.privRandList.length ≤ ev.pubRandList.length →
        (∃ j, j < ev.privRandList.length ∧
          f.failSaveRand (u64add ev.startingHeight j) = true) →
        ∃ m, handleEvent f st (.pubRandCommitted ev) = .error m) ∧
    (∀ (f : StoreFaults) (st : ValidatorStore) (ev : Event) (m : RunError)
        (evs : List Event), handleEvent f st ev = .error m →
        runEvents f st (ev :: evs) = .error m) := by
  refine ⟨?_, ?_, ?_, ?_, ?_, ?_, ?_, ?_⟩
  · intro f st ev h
    refine ⟨.fatal "Registred validator not found in DB", ?_⟩
    simp [handleEvent, h]
  · intro f st ev h
    refine ⟨.fatal "finality signature added validator not found in DB", ?_⟩
    simp [handleEvent, h]
  · intro f st ev h
    refine ⟨.fatal "Public randomness committed validator not found in DB", ?_⟩
    simp [handleEvent, h]
  · rintro f st ev hf ⟨v, hv⟩
    refine ⟨.fatal "err while saving validator to DB", ?_⟩
    simp [handleEvent, hv, setValidatorStatus, hf]
  · rintro f st ev hf ⟨v, hv⟩
    refine ⟨.fatal "err while updating the validator last voted height to DB", ?_⟩
    simp [handleEvent, hv, setValidatorLastVotedHeight, hf]
  · rintro f st ev hf ⟨v, hv⟩
    refine ⟨.fatal "err while saving validator to DB", ?_⟩
    simp [handleEvent, hv, saveValidator, hf]
  · rintro f st ev hfv ⟨v, hv⟩ hle ⟨j, hj, hjf⟩
    obtain ⟨m, hm⟩ := saveRandLoop_fault_error f ev.bbnPubKey ev.startingHeight
      ev.privRandList 0 ev.pubRandList
      (saveValidatorPure st { v with
        lastCommittedHeight :=
          u64add ev.startingHeight (intToU64 ((ev.pubRandList.length : Int) - 1)) })
      (by omega) ⟨j, hj, by rw [Nat.zero_add]; exact hjf⟩
    refine ⟨m, ?_⟩
    simp [handleEvent, hv, saveValidator, hfv, hm]
  · intro f st ev m evs h
    simp [runEvents, h]

/-- Witness for C5: a registration completion for an identity absent
from the (empty) store is fatal, and so is a registration completion
whose status write fails. -/
theorem c5_witness :
    (∃ m, handleEvent noFaults emptyStore (.validatorRegistered exRegEv) = .error m) ∧
    (∃ m, handleEvent faultStatus exStore (.validatorRegistered exRegEv) = .error m) :=
  ⟨c5_consistency_fatal.1 noFaults emptyStore exRegEv rfl,
    c5_consistency_fatal.2.2.2.1 faultStatus exStore exRegEv rfl ⟨exVal, rfl⟩⟩

/-- Claim C6: for every request of any of the five kinds whose
processing completes without a fatal fault, the combined behaviour of
the serializer and the event loop produces exactly one reply write, and
it targets that request's own reply slots. -/
theorem c6_exactly_one_reply (bc : ChainClient) (f : StoreFaults) (st : ValidatorStore)
    (createRes : Except Nat Nat) (q : Req5) (rws : List ReplyWrite)
    (st' : ValidatorStore) (h : processAny bc f st createRes q = .ok (rws, st')) :
    rws.length = 1 ∧
    ∀ w ∈ rws, writeSlot w = errSlot5 q ∨ writeSlot w = succSlot5 q := by
  cases q with
  | create r =>
    simp only [processAny] at h
    injection h with h'
    injection h' with h1 h2
    cases createRes with
    | error e =>
      rw [← h1]
      simp [eventLoopCreate, errSlot5, writeSlot]
    | ok resp =>
      rw [← h1]
      simp [eventLoopCreate, succSlot5, writeSlot]
  | sub r =>
    simp only [processAny, processSub] at h
    cases hex : chainExec bc r with
    | error e =>
      rw [hex] at h
      injection h with h'
      injection h' with h1 h2
      rw [← h1]
      simp [errSlot5, writeSlot]
    | ok tx =>
      rw [hex] at h
      obtain ⟨resp, st2, hout⟩ := handleEvent_ok_shape f st (eventOf r tx) (rws, st') h
      injection hout with hrw hst
      rw [hrw]
      refine ⟨rfl, ?_⟩
      intro w hw
      rw [List.mem_singleton] at hw
      rw [hw]
      right
      simp [writeSlot, succSlot5, evSlot_eventOf]

/-- Witness for C6: a successfully processed jury-signature request
yields exactly one reply write, on its success slot. -/
theorem c6_witness :
    processAny okClient noFaults exStore (.ok 5) (.sub (.jury exJuryReq)) =
      .ok ([.success 60 (.addJurySig 7)], exStore) ∧
    ([ReplyWrite.success 60 (.addJurySig 7)].length = 1 ∧
      ∀ w ∈ [ReplyWrite.success 60 (.addJurySig 7)],
        writeSlot w = errSlot5 (.sub (.jury exJuryReq)) ∨
        writeSlot w = succSlot5 (.sub (.jury exJuryReq))) :=
  ⟨rfl, c6_exactly_one_reply okClient noFaults exStore (.ok 5) (.sub (.jury exJuryReq))
    [ReplyWrite.success 60 (.addJurySig 7)] exStore rfl⟩

/-- Claim C1 (counterexample): it is false that every complete run of
the serializer performs the chain calls in global FIFO order of
submission across all request types.  With a register-validator request
submitted before a finality-signature request, Go's select may fire the
finality channel first, and the chain then observes the calls in the
opposite order. -/
theorem c1_counterexample :
    ¬ (∀ (bc : ChainClient) (rs : List AnyReq) (choices : List Chan),
        allQueuesEmpty (serRun bc choices (enqueueAll rs)).2.2.2 →
        (serRun bc choices (enqueueAll rs)).1 = rs.map callOf) := by
  intro hclaim
  have h := hclaim okClient [.reg exRegReq, .fin exFinReq]
    [.finalitySig, .registerVal] ⟨rfl, rfl, rfl, rfl⟩
  revert h
  decide

/-- Claim C1 (amended): the serializer performs at most one chain call
per loop iteration, and within each request type the chain calls follow
the FIFO order of that type's queue; no ordering is guaranteed across
different request types. -/
theorem c1_per_type_fifo :
    (∀ (bc : ChainClient) (st : SerializerState) (c : Chan),
      (serStep bc st c).1.length ≤ 1) ∧
    (∀ (bc : ChainClient) (choices : List Chan) (st : SerializerState) (c : Chan),
      ∃ n, (serRun bc choices st).1.filter (fun k => chanOfCall k == c) =
        ((queueOf st c).take n).map callOf) :=
  ⟨serStep_calls_le_one, fun bc choices st c => serRun_perchan_fifo bc choices st c⟩


